import Mathlib

/-!
Verification development for the rag-prototype chunk-extraction and
retrieval pipeline (`prototype_files/`).

The Python sources are shallowly embedded:
* `config.py`     : the `Chunk` dataclass and its `to_metadata` flattening.
* `parse_py.py`   : the LibCST-based Python extractor (depth-zero collector,
  whole-line source slicing, and the exact keyword-argument set it hands to
  the `Chunk` constructor).
* `parse_ipynb.py`: the notebook cell extractor.
* `index.py`      : embedding normalization and collection indexing.
* `query.py`      : query-side normalization and id resolution.
* `build_index.py`: the markdown branch of the driver.

External collaborators (LibCST's parser and position metadata, nbformat,
the sentence-transformers encoder, the Chroma client) are modelled as
inputs/parameters: a parse outcome is passed in rather than recomputed, the
encoder is an opaque `String → List ℝ`, and the vector store is an opaque
state with the operations the code invokes on it.
-/

set_option autoImplicit false

/-- A Python runtime value as it appears in chunk metadata: the scalar kinds
recognized by `config._is_scalar` (`str`, `int`, `float`, `bool`), plus
`None` and (as a representative non-scalar) lists. -/
inductive PyValue where
  | str (s : String)
  | int (n : Int)
  | float (q : ℚ)
  | bool (b : Bool)
  | none
  | list (elems : List PyValue)

/-- `config._is_scalar`: `isinstance(v, (str, int, float, bool))`. -/
def isScalar : PyValue → Bool
  | .str _ => true
  | .int _ => true
  | .float _ => true
  | .bool _ => true
  | _ => false

/-- `v is None`. -/
def isNone : PyValue → Bool
  | .none => true
  | _ => false

/-- Python's `str()` on a metadata value. Only the fact that the result is a
string matters to any property below, so list contents are abbreviated. -/
def pyToString : PyValue → String
  | .str s => s
  | .int n => toString n
  | .float q => toString q
  | .bool b => if b then "True" else "False"
  | .none => "None"
  | .list _ => "[...]"

/-- A Python `dict` with string keys, as an insertion-ordered association
list (the iteration/update semantics the flattening code relies on). -/
abbrev PyDict := List (String × PyValue)

/-- `k in m`. -/
def dictContains : PyDict → String → Bool
  | [], _ => false
  | kv :: rest, k => if kv.1 = k then true else dictContains rest k

/-- `m[k] = v`: update in place if the key exists, else append. -/
def dictSet : PyDict → String → PyValue → PyDict
  | [], k, v => [(k, v)]
  | kv :: rest, k, v => if kv.1 = k then (k, v) :: rest else kv :: dictSet rest k v

/-- `m.get(k)`. -/
def dictGet : PyDict → String → Option PyValue
  | [], _ => Option.none
  | kv :: rest, k => if kv.1 = k then some kv.2 else dictGet rest k

/-- The `Chunk` dataclass of `config.py`. The `Literal` string types
(`chunk_type`, `loc_kind`) are carried as strings, and the optional
`metadata` dict is carried as a (possibly empty) association list: the code
only ever iterates it behind a truthiness test, under which `None` and `{}`
behave identically. -/
structure Chunk where
  id : String
  text : String
  source_path : String
  chunk_type : String
  doc_type : String
  doc_dir : String
  doc_rank_hint : Int
  symbol_name : String := ""
  loc_kind : String := "none"
  loc_start : Option Int := Option.none
  loc_end : Option Int := Option.none
  metadata : PyDict := []

/-- The dict literal that opens `Chunk.to_metadata`: the eight
unconditionally projected fields. -/
def Chunk.reservedMap (c : Chunk) : PyDict :=
  [("id", .str c.id),
   ("source_path", .str c.source_path),
   ("chunk_type", .str c.chunk_type),
   ("doc_type", .str c.doc_type),
   ("doc_dir", .str c.doc_dir),
   ("doc_rank_hint", .int c.doc_rank_hint),
   ("symbol_name", .str c.symbol_name),
   ("loc_kind", .str c.loc_kind)]

/-- The two conditional inserts of `to_metadata`: `loc_start` / `loc_end`
are added only when not `None`. -/
def Chunk.reservedWithLoc (c : Chunk) : PyDict :=
  let m := c.reservedMap
  let m := match c.loc_start with
    | some v => dictSet m "loc_start" (.int v)
    | Option.none => m
  match c.loc_end with
    | some v => dictSet m "loc_end" (.int v)
    | Option.none => m

/-- One iteration of the `for k, v in self.metadata.items()` loop of
`to_metadata`: compute the (possibly namespaced) key, drop `None`, keep
scalars, stringify everything else. -/
def flattenStep (m : PyDict) (kv : String × PyValue) : PyDict :=
  let key := if dictContains m kv.1 then "meta_" ++ kv.1 else kv.1
  if isNone kv.2 then m
  else if isScalar kv.2 then dictSet m key kv.2
  else dictSet m key (.str (pyToString kv.2))

/-- The whole extra-metadata loop of `to_metadata`. -/
def flattenExtras (entries : PyDict) (m : PyDict) : PyDict :=
  entries.foldl flattenStep m

/-- `Chunk.to_metadata` from `config.py`. -/
def Chunk.to_metadata (c : Chunk) : PyDict :=
  flattenExtras c.metadata c.reservedWithLoc

theorem dictGet_set_self (m : PyDict) (k : String) (v : PyValue) :
    dictGet (dictSet m k v) k = some v := by
  induction m with
  | nil => simp [dictSet, dictGet]
  | cons kv rest ih =>
    by_cases h : kv.1 = k <;> simp [dictSet, dictGet, h, ih]

theorem dictGet_set_ne (m : PyDict) (k k' : String) (v : PyValue) (h : k ≠ k') :
    dictGet (dictSet m k' v) k = dictGet m k := by
  have h' : ¬(k' = k) := Ne.symm h
  induction m with
  | nil => simp [dictSet, dictGet, h']
  | cons kv rest ih =>
    by_cases hk : kv.1 = k'
    · simp [dictSet, dictGet, hk, h']
    · simp [dictSet, dictGet, hk, ih]

theorem dictContains_set_of (m : PyDict) (k k' : String) (v : PyValue)
    (h : dictContains m k = true) : dictContains (dictSet m k' v) k = true := by
  induction m with
  | nil => simp [dictContains] at h
  | cons kv rest ih =>
    simp only [dictSet]
    by_cases hk : kv.1 = k'
    · rw [if_pos hk]
      simp only [dictContains] at h ⊢
      by_cases hk2 : k' = k
      · rw [if_pos hk2]
      · rw [if_neg hk2]
        have hne : ¬ kv.1 = k := fun hh => hk2 (by rw [← hk]; exact hh)
        rw [if_neg hne] at h
        exact h
    · rw [if_neg hk]
      simp only [dictContains] at h ⊢
      by_cases hk2 : kv.1 = k
      · rw [if_pos hk2]
      · rw [if_neg hk2] at h ⊢
        exact ih h

theorem dictContains_set_ne (m : PyDict) (k k' : String) (v : PyValue)
    (h : ¬ k' = k) : dictContains (dictSet m k' v) k = dictContains m k := by
  induction m with
  | nil => simp [dictSet, dictContains, h]
  | cons kv rest ih =>
    by_cases hk : kv.1 = k'
    · simp [dictSet, dictContains, hk, h]
    · simp [dictSet, dictContains, hk, ih]

theorem dictGet_none_of_not_contains (m : PyDict) (k : String)
    (h : dictContains m k = false) : dictGet m k = Option.none := by
  induction m with
  | nil => simp [dictGet]
  | cons kv rest ih =>
    by_cases hk : kv.1 = k
    · simp [dictContains, hk] at h
    · simp only [dictContains, hk, if_false] at h
      simp [dictGet, hk, ih h]

theorem dictGet_all_values {m : PyDict} {k : String} {v : PyValue}
    (p : PyValue → Bool) (hm : ∀ kv ∈ m, p kv.2 = true)
    (h : dictGet m k = some v) : p v = true := by
  induction m with
  | nil => simp [dictGet] at h
  | cons kv rest ih =>
    by_cases hk : kv.1 = k
    · simp only [dictGet, hk, if_pos rfl] at h
      cases h
      exact hm kv (by simp)
    · simp only [dictGet, hk, if_neg hk] at h
      exact ih (fun x hx => hm x (by simp [hx])) h

theorem dictSet_all_values {m : PyDict} {k : String} {v : PyValue}
    (p : PyValue → Bool) (hm : ∀ kv ∈ m, p kv.2 = true) (hv : p v = true) :
    ∀ kv ∈ dictSet m k v, p kv.2 = true := by
  induction m with
  | nil => simp [dictSet, hv]
  | cons kv0 rest ih =>
    intro kv hkv
    by_cases hk : kv0.1 = k
    · rw [show dictSet (kv0 :: rest) k v = (k, v) :: rest from by simp [dictSet, hk]] at hkv
      rcases List.mem_cons.mp hkv with hh | hh
      · subst hh; exact hv
      · exact hm kv (List.mem_cons_of_mem _ hh)
    · rw [show dictSet (kv0 :: rest) k v = kv0 :: dictSet rest k v from by
        simp [dictSet, hk]] at hkv
      rcases List.mem_cons.mp hkv with hh | hh
      · cases hh; exact hm _ (List.mem_cons_self _ _)
      · exact ih (fun x hx => hm x (List.mem_cons_of_mem _ hx)) kv hh

/-! ## `parse_py.py`: splitting, slicing, and the depth-zero collector -/

/-- Python `str.splitlines()` restricted to `"\n"` separators (the only line
separator occurring in the sources considered): no trailing empty entry, and
the empty string yields no lines. -/
def splitlinesAux : List Char → List Char → List String
  | [], acc => if acc = [] then [] else [String.mk acc.reverse]
  | c :: rest, acc =>
    if c = '\n' then String.mk acc.reverse :: splitlinesAux rest []
    else splitlinesAux rest (c :: acc)

/-- `source.splitlines()`. -/
def splitlines (source : String) : List String :=
  splitlinesAux source.data []

/-- `parse_py._slice_source_by_range`: whole-line slice of the original
source over a 1-based inclusive line span, clamped to the file, joined with
newlines. -/
def sliceSourceByRange (source : String) (startLine endLine : Nat) : String :=
  let lines := splitlines source
  let s := max 1 startLine
  let e := min lines.length endLine
  String.intercalate "\n" ((lines.drop (s - 1)).take (e - (s - 1)))

/-- Kind tag of a collected definition (`_DefRecord.kind`). -/
inductive DefKind where
  | pyFunction
  | pyClass
deriving DecidableEq

/-- `parse_py._DefRecord`: what `_TopLevelDefCollector` collects. The
start/end lines come from LibCST's `PositionProvider` and are carried on the
syntax-tree nodes below. -/
structure DefRecord where
  kind : DefKind
  name : String
  startLine : Nat
  endLine : Nat
  text : String
deriving DecidableEq

/-! A LibCST concrete syntax tree, restricted to the shape the collector
observes: statements are function defs, class defs, other compound
statements (each carrying its list of suites: `if`/`else`, `for`, `while`,
`with`, `try` bodies), or simple statement lines.  Function and class nodes
carry the 1-based start/end lines that `PositionProvider` reports for them.
A suite is either an `IndentedBlock` of statements or a one-line
`SimpleStatementSuite` (which, by the Python grammar, contains only simple
statements and hence never a def). -/
mutual
inductive PyStmt where
  | funcDef (name : String) (startLine endLine : Nat) (body : PySuite)
  | classDef (name : String) (startLine endLine : Nat) (body : PySuite)
  | compound (suites : PySuites)
  | simple
inductive PySuite where
  | indentedBlock (stmts : PyStmts)
  | simpleStatementSuite
inductive PySuites where
  | nil
  | cons (s : PySuite) (rest : PySuites)
inductive PyStmts where
  | nil
  | cons (s : PyStmt) (rest : PyStmts)
end

/-! The traversal of `_TopLevelDefCollector`: depth starts at 0 on the
module, every suite entered bumps it, function/class defs are recorded only
at depth 0 and are never descended into (the visitor returns `False`). -/
mutual
def collectStmt (source : String) (depth : Nat) : PyStmt → List DefRecord
  | .funcDef name s e _ =>
    if depth = 0 then [⟨.pyFunction, name, s, e, sliceSourceByRange source s e⟩] else []
  | .classDef name s e _ =>
    if depth = 0 then [⟨.pyClass, name, s, e, sliceSourceByRange source s e⟩] else []
  | .compound suites => collectSuites source depth suites
  | .simple => []
def collectSuites (source : String) (depth : Nat) : PySuites → List DefRecord
  | .nil => []
  | .cons s rest => collectSuite source depth s ++ collectSuites source depth rest
def collectSuite (source : String) (depth : Nat) : PySuite → List DefRecord
  | .indentedBlock stmts => collectStmts source (depth + 1) stmts
  | .simpleStatementSuite => []
def collectStmts (source : String) (depth : Nat) : PyStmts → List DefRecord
  | .nil => []
  | .cons s rest => collectStmt source depth s ++ collectStmts source depth rest
end

/-- Running the collector over a module's top-level statement list. -/
def collectModule (source : String) (m : PyStmts) : List DefRecord :=
  collectStmts source 0 m

/-- The record a direct child of the module body contributes, per the claim:
one record per top-level function or class, nothing for anything else, and
no descent into bodies. -/
def directChildRecord (source : String) : PyStmt → List DefRecord
  | .funcDef name s e _ => [⟨.pyFunction, name, s, e, sliceSourceByRange source s e⟩]
  | .classDef name s e _ => [⟨.pyClass, name, s, e, sliceSourceByRange source s e⟩]
  | .compound _ => []
  | .simple => []

/-- Claim-side reference: chunk records come from the direct children of the
module's top-level body only. -/
def directTopLevel (source : String) : PyStmts → List DefRecord
  | .nil => []
  | .cons s rest => directChildRecord source s ++ directTopLevel source rest

mutual
theorem collectStmt_nested (source : String) (d : Nat) (hd : d ≠ 0) :
    (s : PyStmt) → collectStmt source d s = []
  | .funcDef n a b body => by simp [collectStmt, hd]
  | .classDef n a b body => by simp [collectStmt, hd]
  | .compound suites => collectSuites_nested source d suites
  | .simple => rfl
theorem collectSuites_nested (source : String) (d : Nat) :
    (ss : PySuites) → collectSuites source d ss = []
  | .nil => rfl
  | .cons s rest => by
    rw [collectSuites, collectSuite_nested source d s, collectSuites_nested source d rest]
    rfl
theorem collectSuite_nested (source : String) (d : Nat) :
    (s : PySuite) → collectSuite source d s = []
  | .indentedBlock stmts => collectStmts_nested source (d + 1) (Nat.succ_ne_zero d) stmts
  | .simpleStatementSuite => rfl
theorem collectStmts_nested (source : String) (d : Nat) (hd : d ≠ 0) :
    (ss : PyStmts) → collectStmts source d ss = []
  | .nil => rfl
  | .cons s rest => by
    rw [collectStmts, collectStmt_nested source d hd s, collectStmts_nested source d hd rest]
    rfl
end

/-- The collector emits exactly the direct top-level defs: anything inside a
suite sits at depth at least 1 and is skipped. -/
theorem collectModule_eq_directTopLevel (source : String) :
    (m : PyStmts) → collectModule source m = directTopLevel source m
  | .nil => rfl
  | .cons s rest => by
    have ih := collectModule_eq_directTopLevel source rest
    unfold collectModule at ih ⊢
    rw [collectStmts, ih, directTopLevel]
    congr 1
    cases s with
    | funcDef n a b body => simp [collectStmt, directChildRecord]
    | classDef n a b body => simp [collectStmt, directChildRecord]
    | compound suites => rw [collectStmt, collectSuites_nested source 0 suites]; rfl
    | simple => rfl

/-! ## `parse_py.parse_python_file` and its `Chunk(...)` constructor calls

`parse_python_file` builds its chunks by calling the `Chunk` constructor
with the keyword arguments `id, text, source_path, chunk_type, start_line,
end_line, metadata`.  The `Chunk` dataclass it imports from `config.py` has
no `start_line`/`end_line` parameters and requires `doc_type`, `doc_dir`
and `doc_rank_hint`, so in Python every one of these calls raises
`TypeError`.  The keyword-binding semantics of such a call is embedded
below, together with the chunk value the call sites describe. -/

/-- The payload `parse_py.py` describes at each `Chunk(...)` call site (its
own, pre-refactor chunk shape). -/
structure PyChunk where
  id : String
  text : String
  source_path : String
  chunk_type : String
  start_line : Nat
  end_line : Nat
  metadata : PyDict

/-- The `TypeError` a Python keyword call can raise. -/
inductive PyTypeError where
  | unexpectedKeyword (kw : String)
  | missingArgument (field : String)
deriving DecidableEq

/-- The parameters of the `Chunk` dataclass generated `__init__`
(`config.py`), in declaration order, with whether each has a default. -/
def chunkInitParams : List (String × Bool) :=
  [("id", false), ("text", false), ("source_path", false), ("chunk_type", false),
   ("doc_type", false), ("doc_dir", false), ("doc_rank_hint", false),
   ("symbol_name", true), ("loc_kind", true), ("loc_start", true),
   ("loc_end", true), ("metadata", true)]

/-- The keyword-argument names every `Chunk(...)` call in `parse_py.py`
passes, in source order. -/
def parsePyChunkKwargs : List String :=
  ["id", "text", "source_path", "chunk_type", "start_line", "end_line", "metadata"]

/-- CPython keyword binding for a call made with keyword arguments only:
an unexpected keyword raises first, then any required parameter that was
not supplied. -/
def kwCallCheck (params : List (String × Bool)) (passed : List String) :
    Except PyTypeError Unit :=
  match passed.find? (fun k => !(params.map Prod.fst).contains k) with
  | some k => .error (.unexpectedKeyword k)
  | Option.none =>
    match params.find? (fun f => !f.2 && !passed.contains f.1) with
    | some f => .error (.missingArgument f.1)
    | Option.none => .ok ()

/-- One `Chunk(...)` call as written in `parse_py.py`: Python evaluates the
argument expressions (the `PyChunk` payload), then binds the keywords
against `config.Chunk.__init__`. -/
def chunkCallFromParsePy (c : PyChunk) : Except PyTypeError PyChunk := do
  let () ← kwCallCheck chunkInitParams parsePyChunkKwargs
  pure c

/-- The id scheme and payload of the per-definition chunks of
`parse_python_file` (lines 131-151). -/
def defChunkOf (pathStr : String) (r : DefRecord) : PyChunk :=
  match r.kind with
  | .pyFunction =>
    { id := pathStr ++ "::func::" ++ r.name ++ "::" ++ toString r.startLine ++ "-"
        ++ toString r.endLine,
      text := r.text, source_path := pathStr, chunk_type := "py_function",
      start_line := r.startLine, end_line := r.endLine,
      metadata := [("symbol", .str r.name), ("parser", .str "libcst")] }
  | .pyClass =>
    { id := pathStr ++ "::class::" ++ r.name ++ "::" ++ toString r.startLine ++ "-"
        ++ toString r.endLine,
      text := r.text, source_path := pathStr, chunk_type := "py_class",
      start_line := r.startLine, end_line := r.endLine,
      metadata := [("symbol", .str r.name), ("parser", .str "libcst")] }

/-- The loop over collected records inside the `try` block. -/
def buildDefChunks (pathStr source : String) (m : PyStmts) :
    Except PyTypeError (List PyChunk) :=
  (collectModule source m).mapM (fun r => chunkCallFromParsePy (defChunkOf pathStr r))

/-- `parse_python_file` from `parse_py.py`.  `fileName` stands for
`path.name`; `parsed` is the outcome of the external `cst.parse_module`
(`Option.none` on malformed syntax).  The module chunk is built before the
`try` block, so a `TypeError` raised there propagates to the caller; inside
the `try`, any exception (including a `TypeError` from a chunk
construction) is caught and answered by rebuilding the module chunk with a
`parse_failed_fallback` note — through the same constructor. -/
def parsePythonFileActual (pathStr fileName source : String)
    (parsed : Option PyStmts) : Except PyTypeError (List PyChunk) := do
  let lines := splitlines source
  let endLine := if lines.isEmpty then 1 else lines.length
  let moduleChunk ← chunkCallFromParsePy
    { id := pathStr ++ "::module", text := source, source_path := pathStr,
      chunk_type := "py_module", start_line := 1, end_line := endLine,
      metadata := [("filename", .str fileName), ("parser", .str "libcst")] }
  let fallbackCall : Except PyTypeError (List PyChunk) := do
    let fallback ← chunkCallFromParsePy
      { id := pathStr ++ "::module", text := source, source_path := pathStr,
        chunk_type := "py_module", start_line := 1, end_line := endLine,
        metadata := [("filename", .str fileName), ("parser", .str "libcst"),
                     ("note", .str "parse_failed_fallback")] }
    pure [fallback]
  match parsed with
  | some m =>
    match buildDefChunks pathStr source m with
    | .ok defChunks => pure (moduleChunk :: defChunks)
    | .error _ => fallbackCall
  | Option.none => fallbackCall

/-- Every `Chunk(...)` call in `parse_py.py` raises
`TypeError: unexpected keyword argument start_line`. -/
theorem chunkCallFromParsePy_raises (c : PyChunk) :
    chunkCallFromParsePy c = .error (.unexpectedKeyword "start_line") := by
  rfl

/-- Hence `parse_python_file` raises on every input whatsoever. -/
theorem parsePythonFileActual_raises (pathStr fileName source : String)
    (parsed : Option PyStmts) :
    parsePythonFileActual pathStr fileName source parsed
      = .error (.unexpectedKeyword "start_line") := by
  rfl

/-! ## `parse_ipynb.parse_notebook` and the markdown branch of `build_index` -/

/-- A notebook cell as `parse_notebook` reads it: its `cell_type` and its
`source` text (nbformat v4 normalizes `source` to a string). -/
structure NotebookCell where
  cell_type : String
  source : String

/-- Truthiness of `s.strip()` negated (`not source or not
str(source).strip()` collapses to this for strings): every character is
whitespace. -/
def isBlank (s : String) : Bool :=
  s.data.all Char.isWhitespace

/-- The chunk `parse_notebook` appends for the retained cell of original
ordinal `i` (its enumeration index, not a post-filter position). -/
def cellChunk (pathStr doc_type doc_dir : String) (doc_rank_hint : Int)
    (i : Nat) (cell : NotebookCell) : Chunk :=
  { id := pathStr ++ "::cell::" ++ toString i,
    text := cell.source,
    source_path := pathStr,
    chunk_type := "ipynb_cell",
    doc_type := doc_type, doc_dir := doc_dir, doc_rank_hint := doc_rank_hint,
    symbol_name := "",
    loc_kind := "cell",
    loc_start := some (Int.ofNat i), loc_end := some (Int.ofNat i),
    metadata := [("cell_type", .str cell.cell_type)] }

/-- The `for i, cell in enumerate(nb.cells)` loop: skip blank cells,
otherwise append the cell chunk. -/
def parseCellsLoop (pathStr doc_type doc_dir : String) (doc_rank_hint : Int) :
    List (Nat × NotebookCell) → List Chunk
  | [] => []
  | (i, cell) :: rest =>
    if isBlank cell.source then
      parseCellsLoop pathStr doc_type doc_dir doc_rank_hint rest
    else
      cellChunk pathStr doc_type doc_dir doc_rank_hint i cell
        :: parseCellsLoop pathStr doc_type doc_dir doc_rank_hint rest

/-- `parse_notebook` from `parse_ipynb.py`.  `read` is the outcome of the
external `nbformat.read` (`Except.error` when the container fails to
parse), `rawText` the raw file content read in that failure branch; the doc
fields come from `infer_doc_fields`. -/
def parseNotebook (pathStr doc_type doc_dir : String) (doc_rank_hint : Int)
    (read : Except Unit (List NotebookCell)) (rawText : String) : List Chunk :=
  match read with
  | .error _ =>
    [{ id := pathStr ++ "::notebook_raw",
       text := rawText,
       source_path := pathStr,
       chunk_type := "ipynb_cell",
       doc_type := doc_type, doc_dir := doc_dir, doc_rank_hint := doc_rank_hint,
       symbol_name := "",
       loc_kind := "none",
       loc_start := Option.none, loc_end := Option.none,
       metadata := [("note", .str "nbformat_read_failed")] }]
  | .ok cells => parseCellsLoop pathStr doc_type doc_dir doc_rank_hint cells.enum

/-- Claim-side reference for the notebook extractor: visit cells in
document order, drop the blank ones, and emit for each retained cell the
chunk indexed by its original 0-based ordinal. -/
def notebookChunksPerClaim (pathStr doc_type doc_dir : String)
    (doc_rank_hint : Int) (cells : List NotebookCell) : List Chunk :=
  (cells.enum.filter (fun ic => !isBlank ic.2.source)).map
    (fun ic => cellChunk pathStr doc_type doc_dir doc_rank_hint ic.1 ic.2)

theorem parseCellsLoop_eq_filter_map (pathStr doc_type doc_dir : String)
    (doc_rank_hint : Int) (ps : List (Nat × NotebookCell)) :
    parseCellsLoop pathStr doc_type doc_dir doc_rank_hint ps
      = (ps.filter (fun ic => !isBlank ic.2.source)).map
          (fun ic => cellChunk pathStr doc_type doc_dir doc_rank_hint ic.1 ic.2) := by
  induction ps with
  | nil => rfl
  | cons ic rest ih =>
    rcases ic with ⟨i, cell⟩
    by_cases hb : isBlank cell.source
    · simp [parseCellsLoop, List.filter, hb, ih]
    · simp [parseCellsLoop, List.filter, hb, ih]

/-- The markdown branch of `build_index.main` (lines 23-40): a `.md` file
whose text has a truthy `strip()` contributes a single whole-file chunk;
a blank one contributes nothing. -/
def mdChunks (pathStr fileName doc_type doc_dir : String) (doc_rank_hint : Int)
    (text : String) : List Chunk :=
  if !isBlank text then
    [{ id := pathStr ++ "::md",
       text := text,
       source_path := pathStr,
       chunk_type := "md_section",
       doc_type := doc_type, doc_dir := doc_dir, doc_rank_hint := doc_rank_hint,
       symbol_name := "",
       loc_kind := "none",
       loc_start := Option.none, loc_end := Option.none,
       metadata := [("filename", .str fileName)] }]
  else []

/-! ## `index.py` / `query.py`: normalization, indexing, id resolution

Embedding vectors are idealized as lists of reals.  IEEE division is
modelled as an `Option`-valued operation that is defined only for a
non-zero denominator (float division by zero yields `inf`/`NaN`, not a real
number); the total real-division form is used where a guard provably keeps
the denominator non-zero. -/

/-- Sum of squares of a vector's entries. -/
def sumSq (v : List ℝ) : ℝ := (v.map (fun x => x * x)).sum

/-- `np.linalg.norm(v)`: the L2 norm. -/
noncomputable def l2norm (v : List ℝ) : ℝ := Real.sqrt (sumSq v)

/-- The guard `norms[norms == 0] = 1.0` of `build_embeddings`
(`index.py` line 32): a norm that is exactly zero is replaced by 1. -/
noncomputable def guardNorm (n : ℝ) : ℝ := if n = 0 then 1 else n

/-- The per-row normalization of `build_embeddings`: divide every entry by
the guarded norm. -/
noncomputable def normalizeRow (v : List ℝ) : List ℝ :=
  v.map (fun x => x / guardNorm (l2norm v))

/-- The normalization stage of `build_embeddings` over the whole batch
(`embs = embs / norms` with `axis=1` norms). -/
noncomputable def normalizeBatch (embs : List (List ℝ)) : List (List ℝ) :=
  embs.map normalizeRow

/-- IEEE float division, defined only for non-zero denominators. -/
noncomputable def floatDiv (x y : ℝ) : Option ℝ :=
  if y = 0 then Option.none else some (x / y)

/-- Collect a list of partial results; any undefined entry poisons the row
(in numpy, a `NaN`/`inf` entry in the output array). -/
def seqOption {α : Type} : List (Option α) → Option (List α)
  | [] => some []
  | o :: rest => do
    let x ← o
    let xs ← seqOption rest
    pure (x :: xs)

/-- The index-side row normalization of `build_embeddings`
(`index.py` lines 31-33), with division modelled partially: divide by the
zero-guarded norm. -/
noncomputable def normalizeRowIndex (v : List ℝ) : Option (List ℝ) :=
  seqOption (v.map (fun x => floatDiv x (guardNorm (l2norm v))))

/-- The query-side normalization of `search` (`query.py` line 43):
`q_emb / np.linalg.norm(q_emb, ...)` with no zero guard. -/
noncomputable def normalizeRowQuery (v : List ℝ) : Option (List ℝ) :=
  seqOption (v.map (fun x => floatDiv x (l2norm v)))

/-- One record of the batched `collection.add` call of
`create_collection_and_index` (`index.py` lines 63-73): parallel ids,
documents, flattened metadata and embeddings, written as a zip. -/
structure AddedRecord where
  id : String
  document : String
  metadata : PyDict
  embedding : List ℝ

/-- The payload of the `collection.add` call. -/
noncomputable def mkRecords (chunks : List Chunk) (embs : List (List ℝ)) :
    List AddedRecord :=
  (chunks.zip embs).map (fun ce =>
    { id := ce.1.id, document := ce.1.text, metadata := ce.1.to_metadata,
      embedding := ce.2 })

/-- `build_embeddings`: encode every chunk's text (the model is an opaque
function) and normalize each row. -/
noncomputable def buildEmbeddings (encode : String → List ℝ)
    (chunks : List Chunk) : List (List ℝ) :=
  normalizeBatch ((chunks.map Chunk.text).map encode)

/-- The Chroma client and collection, as the opaque operations
`create_collection_and_index` invokes on them: the collection names held by
a client state, the `collection.delete()` attempt on an existing collection
(fallible), `create_collection`, and the batched `add`. -/
structure VectorStore (σ : Type) where
  listCollectionNames : σ → List String
  collectionDelete : σ → String → Except String σ
  createCollection : σ → String → σ
  addRecords : σ → String → List AddedRecord → σ

/-- `create_collection_and_index` from `index.py`: if the target name
exists, attempt the deletion and swallow any failure (`except Exception:
pass`), then create the collection and add every chunk. -/
noncomputable def createCollectionAndIndex {σ : Type} (store : VectorStore σ)
    (encode : String → List ℝ) (chunks : List Chunk) (collectionName : String)
    (st : σ) : σ :=
  let st1 :=
    if (store.listCollectionNames st).contains collectionName then
      match store.collectionDelete st collectionName with
      | .ok s => s
      | .error _ => st
    else st
  let st2 := store.createCollection st1 collectionName
  store.addRecords st2 collectionName
    (mkRecords chunks (buildEmbeddings encode chunks))

/-- The id resolution of `search` (`query.py` line 62): take the store's id
when the `ids` column covers this index, else fall back to the id recorded
in the result's metadata. -/
def resolveId (ids : List String) (idx : Nat) (meta : PyDict) : Option PyValue :=
  if h : idx < ids.length then some (.str (ids.get ⟨idx, h⟩))
  else dictGet meta "id"

theorem sumSq_nonneg (v : List ℝ) : 0 ≤ sumSq v := by
  induction v with
  | nil => simp [sumSq]
  | cons x rest ih =>
    simp only [sumSq, List.map_cons, List.sum_cons]
    have := mul_self_nonneg x
    simp only [sumSq] at ih
    linarith

theorem sumSq_div (v : List ℝ) (n : ℝ) :
    sumSq (v.map (fun x => x / n)) = sumSq v / (n * n) := by
  induction v with
  | nil => simp [sumSq]
  | cons x rest ih =>
    simp only [sumSq, List.map_cons, List.sum_cons, List.map_map] at ih ⊢
    rw [show ((fun x => x * x) ∘ fun x => x / n) = fun x => (x / n) * (x / n) from rfl]
      at ih ⊢
    rw [ih, div_mul_div_comm, div_add_div_same]

theorem guardNorm_ne_zero (n : ℝ) : guardNorm n ≠ 0 := by
  unfold guardNorm
  by_cases h : n = 0 <;> simp [h]

theorem l2norm_normalizeRow (v : List ℝ) (h : l2norm v ≠ 0) :
    l2norm (normalizeRow v) = 1 := by
  have hn : guardNorm (l2norm v) = l2norm v := if_neg h
  have hsq : l2norm v * l2norm v = sumSq v := Real.mul_self_sqrt (sumSq_nonneg v)
  rw [normalizeRow, hn, l2norm, sumSq_div, hsq, div_self]
  · exact Real.sqrt_one
  · rw [← hsq]; exact mul_ne_zero h h

theorem normalizeRow_of_zero_norm (v : List ℝ) (h : l2norm v = 0) :
    normalizeRow v = v := by
  have hn : guardNorm (l2norm v) = 1 := by rw [h]; simp [guardNorm]
  simp [normalizeRow, hn]

theorem seqOption_map_some {α β : Type} (f : α → β) (l : List α) :
    seqOption (l.map (fun x => some (f x))) = some (l.map f) := by
  induction l with
  | nil => rfl
  | cons x rest ih => simp [seqOption, ih]

theorem normalizeRowIndex_eq_some (v : List ℝ) :
    normalizeRowIndex v = some (normalizeRow v) := by
  unfold normalizeRowIndex normalizeRow
  have hd : ∀ x : ℝ, floatDiv x (guardNorm (l2norm v))
      = some (x / guardNorm (l2norm v)) :=
    fun x => if_neg (guardNorm_ne_zero (l2norm v))
  calc seqOption (v.map (fun x => floatDiv x (guardNorm (l2norm v))))
      = seqOption (v.map (fun x => some (x / guardNorm (l2norm v)))) := by
        simp only [hd]
    _ = some (v.map (fun x => x / guardNorm (l2norm v))) :=
        seqOption_map_some _ v

theorem l2norm_zero_single : l2norm [(0 : ℝ)] = 0 := by
  have h : sumSq [(0 : ℝ)] = 0 := by norm_num [sumSq]
  rw [l2norm, h, Real.sqrt_zero]

theorem l2norm_three_four : l2norm [(3 : ℝ), 4] ≠ 0 := by
  rw [l2norm]
  have h : sumSq [(3 : ℝ), 4] = 25 := by norm_num [sumSq]
  rw [h]
  positivity

/-! ## Invariants of the metadata flattening loop -/

theorem data_append_eq (a b : String) : (a ++ b).data = a.data ++ b.data := by
  cases a; cases b; rfl

/-- A key whose first five characters differ from `meta_` is never equal to
a namespaced key. -/
theorem ne_meta_append (k : String) (h5 : k.data.take 5 ≠ ("meta_" : String).data)
    (s : String) : k ≠ "meta_" ++ s := by
  intro h
  apply h5
  have hd : k.data = ("meta_" : String).data ++ s.data := by
    rw [h, data_append_eq]
  rw [hd]
  have hl : (("meta_" : String).data).length = 5 := by decide
  rw [← hl, List.take_left]

/-- A key already present in the mapping keeps its value across the whole
extra-metadata loop, provided it is not itself of the namespaced
`meta_`-prefixed form: a colliding extra entry is diverted to `meta_` ++ key
and every non-colliding entry lands on its own distinct key. -/
theorem flattenExtras_get_stable (entries : PyDict) (m : PyDict) (k0 : String)
    (hin : dictContains m k0 = true) (hpre : ∀ s, k0 ≠ "meta_" ++ s) :
    dictGet (flattenExtras entries m) k0 = dictGet m k0 := by
  induction entries generalizing m with
  | nil => rfl
  | cons kv rest ih =>
    show dictGet (flattenExtras rest (flattenStep m kv)) k0 = dictGet m k0
    have hkey : dictGet (flattenStep m kv) k0 = dictGet m k0 ∧
        dictContains (flattenStep m kv) k0 = true := by
      unfold flattenStep
      by_cases hnone : isNone kv.2
      · simp [hnone, hin]
      · have hne : (if dictContains m kv.1 then "meta_" ++ kv.1 else kv.1) ≠ k0 := by
          by_cases hc : dictContains m kv.1
          · simp only [hc, if_pos]
            exact fun hh => hpre kv.1 hh.symm
          · simp only [hc, if_neg, Bool.not_eq_true]
            intro hh
            rw [hh] at hc
            simp [hin] at hc
        by_cases hs : isScalar kv.2 <;>
          simp [hnone, hs, dictGet_set_ne _ _ _ _ (Ne.symm hne),
            dictContains_set_of _ _ _ _ hin]
    rcases hkey with ⟨hget, hcontains⟩
    rw [ih (flattenStep m kv) hcontains, hget]

/-- A key that is absent from the mapping, is not carried by any extra
entry, and is not of the namespaced form, stays absent. -/
theorem flattenExtras_get_absent (entries : PyDict) (m : PyDict) (k0 : String)
    (hout : dictContains m k0 = false)
    (hk : ∀ kv ∈ entries, kv.1 ≠ k0)
    (hpre : ∀ s, k0 ≠ "meta_" ++ s) :
    dictGet (flattenExtras entries m) k0 = Option.none := by
  induction entries generalizing m with
  | nil => exact dictGet_none_of_not_contains m k0 hout
  | cons kv rest ih =>
    show dictGet (flattenExtras rest (flattenStep m kv)) k0 = Option.none
    have hcontains : dictContains (flattenStep m kv) k0 = false := by
      unfold flattenStep
      by_cases hnone : isNone kv.2
      · simp [hnone, hout]
      · have hne : ¬ (if dictContains m kv.1 then "meta_" ++ kv.1 else kv.1) = k0 := by
          by_cases hc : dictContains m kv.1
          · simp only [hc, if_pos]
            exact fun hh => hpre kv.1 hh.symm
          · simp only [hc, if_neg, Bool.not_eq_true]
            exact fun hh => hk kv (List.mem_cons_self _ _) hh
        by_cases hs : isScalar kv.2 <;>
          simp [hnone, hs, dictContains_set_ne _ _ _ _ hne, hout]
    exact ih (flattenStep m kv) hcontains
      (fun x hx => hk x (List.mem_cons_of_mem _ hx))

/-- Every value the extra-metadata loop leaves in the mapping is scalar,
provided the initial mapping holds only scalars: `None` entries are
dropped, scalars kept, anything else stringified. -/
theorem flattenExtras_all_scalar (entries : PyDict) (m : PyDict)
    (hm : ∀ kv ∈ m, isScalar kv.2 = true) :
    ∀ kv ∈ flattenExtras entries m, isScalar kv.2 = true := by
  induction entries generalizing m with
  | nil => exact hm
  | cons kv rest ih =>
    refine ih (flattenStep m kv) ?_
    unfold flattenStep
    by_cases hnone : isNone kv.2
    · simpa [hnone] using hm
    · by_cases hs : isScalar kv.2
      · simpa [hnone, hs] using dictSet_all_values isScalar hm hs
      · have hv : isScalar (PyValue.str (pyToString kv.2)) = true := rfl
        simpa [hnone, hs] using dictSet_all_values isScalar hm hv

/-- Reserved lookups pass through the conditional `loc` inserts untouched. -/
theorem reservedWithLoc_get_of_ne (c : Chunk) (k0 : String)
    (h1 : k0 ≠ "loc_start") (h2 : k0 ≠ "loc_end") :
    dictGet c.reservedWithLoc k0 = dictGet c.reservedMap k0 := by
  unfold Chunk.reservedWithLoc
  cases hs : c.loc_start <;> cases he : c.loc_end <;>
    simp only [dictGet_set_ne _ _ _ _ h1, dictGet_set_ne _ _ _ _ h2]

/-- A key present in the reserved projection is present after the `loc`
inserts. -/
theorem reservedWithLoc_contains_of (c : Chunk) (k0 : String)
    (hc : dictContains c.reservedMap k0 = true) :
    dictContains c.reservedWithLoc k0 = true := by
  unfold Chunk.reservedWithLoc
  cases hs : c.loc_start <;> cases he : c.loc_end <;>
    simp only [dictContains_set_of _ _ _ _ hc, dictContains_set_of, hc]

/-- The flattened metadata agrees with the reserved projection on every
always-projected key. -/
theorem to_metadata_get_reserved (c : Chunk) (k0 : String)
    (h1 : k0 ≠ "loc_start") (h2 : k0 ≠ "loc_end")
    (hpre : k0.data.take 5 ≠ ("meta_" : String).data)
    (hc : dictContains c.reservedMap k0 = true) :
    dictGet c.to_metadata k0 = dictGet c.reservedMap k0 := by
  unfold Chunk.to_metadata
  rw [flattenExtras_get_stable c.metadata c.reservedWithLoc k0
      (reservedWithLoc_contains_of c k0 hc) (ne_meta_append k0 hpre)]
  exact reservedWithLoc_get_of_ne c k0 h1 h2

/-- All values of the reserved projection are scalars. -/
theorem reservedMap_all_scalar (c : Chunk) :
    ∀ kv ∈ c.reservedMap, isScalar kv.2 = true := by
  intro kv hkv
  simp only [Chunk.reservedMap, List.mem_cons, List.not_mem_nil, or_false] at hkv
  rcases hkv with h | h | h | h | h | h | h | h <;> subst h <;> rfl

/-- All values after the conditional `loc` inserts are scalars. -/
theorem reservedWithLoc_all_scalar (c : Chunk) :
    ∀ kv ∈ c.reservedWithLoc, isScalar kv.2 = true := by
  unfold Chunk.reservedWithLoc
  cases hs : c.loc_start with
  | none =>
    cases he : c.loc_end with
    | none => simpa using reservedMap_all_scalar c
    | some v2 =>
      have hv2 : isScalar (PyValue.int v2) = true := rfl
      simpa using dictSet_all_values isScalar (reservedMap_all_scalar c) hv2
  | some v1 =>
    have hv1 : isScalar (PyValue.int v1) = true := rfl
    cases he : c.loc_end with
    | none => simpa using dictSet_all_values isScalar (reservedMap_all_scalar c) hv1
    | some v2 =>
      have hv2 : isScalar (PyValue.int v2) = true := rfl
      simpa using dictSet_all_values isScalar
        (dictSet_all_values isScalar (reservedMap_all_scalar c) hv1) hv2

/-- Every value of the flattened metadata is a scalar. -/
theorem to_metadata_all_scalar (c : Chunk) :
    ∀ kv ∈ c.to_metadata, isScalar kv.2 = true :=
  flattenExtras_all_scalar c.metadata c.reservedWithLoc (reservedWithLoc_all_scalar c)

/-- The flattened metadata always carries the chunk's own id under `id`. -/
theorem to_metadata_get_id (c : Chunk) :
    dictGet c.to_metadata "id" = some (.str c.id) := by
  rw [to_metadata_get_reserved c "id" (by decide) (by decide) (by decide) rfl]
  rfl

/-- When a `loc` field is absent and no extra entry reintroduces its key,
the key is absent from the flattened metadata. -/
theorem to_metadata_loc_start_absent (c : Chunk) (hs : c.loc_start = Option.none)
    (hk : ∀ kv ∈ c.metadata, kv.1 ≠ "loc_start") :
    dictGet c.to_metadata "loc_start" = Option.none := by
  unfold Chunk.to_metadata
  apply flattenExtras_get_absent c.metadata c.reservedWithLoc "loc_start" _ hk
    (ne_meta_append "loc_start" (by decide))
  unfold Chunk.reservedWithLoc
  rw [hs]
  cases he : c.loc_end with
  | none => rfl
  | some v2 => rw [dictContains_set_ne _ _ _ _ (by decide)]; rfl

theorem to_metadata_loc_end_absent (c : Chunk) (he : c.loc_end = Option.none)
    (hk : ∀ kv ∈ c.metadata, kv.1 ≠ "loc_end") :
    dictGet c.to_metadata "loc_end" = Option.none := by
  unfold Chunk.to_metadata
  apply flattenExtras_get_absent c.metadata c.reservedWithLoc "loc_end" _ hk
    (ne_meta_append "loc_end" (by decide))
  unfold Chunk.reservedWithLoc
  rw [he]
  cases hs : c.loc_start with
  | none => rfl
  | some v1 => rw [dictContains_set_ne _ _ _ _ (by decide)]; rfl

/-- A single colliding extra entry is stored under the namespaced key. -/
theorem to_metadata_singleton_collision (c : Chunk) (k : String) (v : PyValue)
    (hmeta : c.metadata = [(k, v)]) (hv : isNone v = false)
    (hc : dictContains c.reservedWithLoc k = true) :
    dictGet c.to_metadata ("meta_" ++ k)
      = some (if isScalar v then v else .str (pyToString v)) := by
  unfold Chunk.to_metadata flattenExtras
  rw [hmeta]
  show dictGet (flattenStep c.reservedWithLoc (k, v)) ("meta_" ++ k) = _
  unfold flattenStep
  simp only [hc, if_pos, hv, Bool.false_eq_true, if_false]
  by_cases hs : isScalar v
  · simp only [hs, if_pos, if_true, dictGet_set_self]
  · simp only [hs, if_neg, if_false, Bool.false_eq_true, dictGet_set_self]

/-! ## Concrete inputs used by the claims -/

/-- A three-line file with a nested def:
`def outer():` / `    def inner():` / `        pass`. -/
def c1src : String := "def outer():\n    def inner():\n        pass\n"

/-- The syntax tree LibCST produces for `c1src`, with the line spans
`PositionProvider` reports: `outer` spans lines 1-3, `inner` lines 2-3. -/
def c1cst : PyStmts :=
  .cons (.funcDef "outer" 1 3 (.indentedBlock
    (.cons (.funcDef "inner" 2 3 (.indentedBlock (.cons .simple .nil))) .nil)))
    .nil

/-- A ten-line file whose single top-level function spans lines 3-7. -/
def c2src : String :=
  "import os\n\ndef f(x):\n    y = x + 1\n    # comment\n    z = y * 2\n    return z\n\n# tail\nprint(1)\n"

/-- Lines 3 through 7 of `c2src`, joined by newlines. -/
def c2text : String :=
  "def f(x):\n    y = x + 1\n    # comment\n    z = y * 2\n    return z"

/-- The syntax tree for `c2src`: an import, the function `f` over lines
3-7, and a trailing call. -/
def c2cst : PyStmts :=
  .cons .simple
    (.cons (.funcDef "f" 3 7 (.indentedBlock
      (.cons .simple (.cons .simple (.cons .simple (.cons .simple .nil))))))
      (.cons .simple .nil))

/-- Three notebook cells, the middle one blank. -/
def threeCells : List NotebookCell :=
  [⟨"code", "print(1)"⟩, ⟨"markdown", " \n"⟩, ⟨"code", "x = 2"⟩]

/-! ## Claims C1-C4 -/

/-- Claim C1: for a file that parses, the extractor's collector records one
record per top-level function or class only — a def nested in another def,
in a class body, or in any compound-statement body is never recorded, since
any suite raises the depth above zero (proved for every syntax tree, and
evaluated on the nested example).  However, the extractor as shipped never
emits these as chunks: every `Chunk(...)` call in `parse_py.py` passes
`start_line`/`end_line` keywords that `config.Chunk` does not accept, so
`parse_python_file` raises `TypeError` instead of returning chunks. -/
theorem c1_top_level_only :
    (∀ (source : String) (m : PyStmts),
        collectModule source m = directTopLevel source m) ∧
    collectModule c1src c1cst
      = [⟨.pyFunction, "outer", 1, 3,
          "def outer():\n    def inner():\n        pass"⟩] ∧
    parsePythonFileActual "demo.py" "demo.py" c1src (some c1cst)
      = .error (.unexpectedKeyword "start_line") :=
  ⟨fun source m => collectModule_eq_directTopLevel source m, by decide, rfl⟩

/-- Claim C2: the collected record for the function spanning lines 3-7 of a
ten-line file carries 1-based inclusive bounds 3 and 7 and, as text, exactly
the original source's lines 3 through 7 joined by newlines (a whole-line
slice, never re-rendered).  But no chunk with these locations is ever
produced: `parse_python_file` raises `TypeError` at its first `Chunk(...)`
call. -/
theorem c2_line_range_slicing :
    (splitlines c2src).length = 10 ∧
    sliceSourceByRange c2src 3 7 = c2text ∧
    collectModule c2src c2cst = [⟨.pyFunction, "f", 3, 7, c2text⟩] ∧
    parsePythonFileActual "ten.py" "ten.py" c2src (some c2cst)
      = .error (.unexpectedKeyword "start_line") :=
  ⟨rfl, rfl, by decide, rfl⟩

/-- Claim C3: on malformed input the extractor was meant to return only the
module chunk with a fallback marker, without raising; in fact the module
chunk is constructed before the `try` block with keyword arguments
`config.Chunk` does not accept, so `parse_python_file` raises `TypeError`
to its caller on malformed input — indeed on every input. -/
theorem c3_parse_failure_raises :
    parsePythonFileActual "bad.py" "bad.py" "def f(:" Option.none
      = .error (.unexpectedKeyword "start_line") ∧
    (∀ (pathStr fileName source : String) (parsed : Option PyStmts),
        parsePythonFileActual pathStr fileName source parsed
          = .error (.unexpectedKeyword "start_line")) :=
  ⟨rfl, parsePythonFileActual_raises⟩

/-- Claim C4: on a successfully parsed notebook, cells are visited in
document order, blank cells contribute nothing, and every retained cell's
chunk carries `loc_kind = "cell"`, `loc_start = loc_end =` the cell's
0-based ordinal in the original notebook, with an id encoding that original
ordinal; three cells with the second blank yield chunks at ordinals 0
and 2. -/
theorem c4_notebook_cell_ordinals (pathStr doc_type doc_dir : String)
    (doc_rank_hint : Int) (cells : List NotebookCell) (rawText : String) :
    parseNotebook pathStr doc_type doc_dir doc_rank_hint (.ok cells) rawText
      = notebookChunksPerClaim pathStr doc_type doc_dir doc_rank_hint cells ∧
    (parseNotebook "nb.ipynb" "ipynb" "." 1 (.ok threeCells) "").map Chunk.loc_start
      = [some 0, some 2] ∧
    (parseNotebook "nb.ipynb" "ipynb" "." 1 (.ok threeCells) "").map Chunk.loc_end
      = [some 0, some 2] ∧
    (parseNotebook "nb.ipynb" "ipynb" "." 1 (.ok threeCells) "").map Chunk.id
      = ["nb.ipynb::cell::0", "nb.ipynb::cell::2"] :=
  ⟨parseCellsLoop_eq_filter_map pathStr doc_type doc_dir doc_rank_hint cells.enum,
   rfl, rfl, rfl⟩

/-! ## Claims C5-C7 -/

/-- A chunk whose location fields are absent while its extra metadata
carries the reserved key name `loc_start`. -/
def collisionChunk : Chunk :=
  { id := "f.md::md", text := "hello", source_path := "f.md",
    chunk_type := "md_section", doc_type := "md", doc_dir := ".",
    doc_rank_hint := 2, symbol_name := "", loc_kind := "none",
    loc_start := Option.none, loc_end := Option.none,
    metadata := [("loc_start", .int 99)] }

/-- Claim C5 counterexample: with `loc_start` absent, an extra metadata
entry named `loc_start` is stored under the bare reserved key name — it is
neither omitted nor namespaced, because the collision check tests the keys
currently in the mapping, which exclude an unset `loc` field. -/
theorem c5_counterexample :
    dictGet collisionChunk.to_metadata "loc_start" = some (.int 99) ∧
    dictGet collisionChunk.to_metadata "meta_loc_start" = Option.none :=
  ⟨rfl, rfl⟩

/-- Claim C5 (amended): the flattening always yields scalar values only (no
null, no nested value); the eight unconditional reserved fields are
projected and can never be overwritten by extra metadata; `loc_start` /
`loc_end` are omitted when absent provided no extra entry itself carries
that key; and an extra entry colliding with a key actually present in the
mapping is stored under the `meta_`-prefixed key instead of overwriting
it. -/
theorem c5_flattening_amended (c : Chunk) :
    (∀ kv ∈ c.to_metadata, isScalar kv.2 = true) ∧
    dictGet c.to_metadata "id" = some (.str c.id) ∧
    dictGet c.to_metadata "source_path" = some (.str c.source_path) ∧
    dictGet c.to_metadata "chunk_type" = some (.str c.chunk_type) ∧
    dictGet c.to_metadata "doc_type" = some (.str c.doc_type) ∧
    dictGet c.to_metadata "doc_dir" = some (.str c.doc_dir) ∧
    dictGet c.to_metadata "doc_rank_hint" = some (.int c.doc_rank_hint) ∧
    dictGet c.to_metadata "symbol_name" = some (.str c.symbol_name) ∧
    dictGet c.to_metadata "loc_kind" = some (.str c.loc_kind) ∧
    (c.loc_start = Option.none → (∀ kv ∈ c.metadata, kv.1 ≠ "loc_start") →
      dictGet c.to_metadata "loc_start" = Option.none) ∧
    (c.loc_end = Option.none → (∀ kv ∈ c.metadata, kv.1 ≠ "loc_end") →
      dictGet c.to_metadata "loc_end" = Option.none) ∧
    (∀ (k : String) (v : PyValue), c.metadata = [(k, v)] → isNone v = false →
      dictContains c.reservedWithLoc k = true →
      dictGet c.to_metadata ("meta_" ++ k)
        = some (if isScalar v then v else .str (pyToString v))) := by
  refine ⟨to_metadata_all_scalar c, ?_, ?_, ?_, ?_, ?_, ?_, ?_, ?_,
    to_metadata_loc_start_absent c, to_metadata_loc_end_absent c,
    fun k v => to_metadata_singleton_collision c k v⟩
  · exact (to_metadata_get_reserved c "id" (by decide) (by decide)
      (by decide) rfl).trans rfl
  · exact (to_metadata_get_reserved c "source_path" (by decide) (by decide)
      (by decide) rfl).trans rfl
  · exact (to_metadata_get_reserved c "chunk_type" (by decide) (by decide)
      (by decide) rfl).trans rfl
  · exact (to_metadata_get_reserved c "doc_type" (by decide) (by decide)
      (by decide) rfl).trans rfl
  · exact (to_metadata_get_reserved c "doc_dir" (by decide) (by decide)
      (by decide) rfl).trans rfl
  · exact (to_metadata_get_reserved c "doc_rank_hint" (by decide) (by decide)
      (by decide) rfl).trans rfl
  · exact (to_metadata_get_reserved c "symbol_name" (by decide) (by decide)
      (by decide) rfl).trans rfl
  · exact (to_metadata_get_reserved c "loc_kind" (by decide) (by decide)
      (by decide) rfl).trans rfl

/-- A chunk as the notebook extractor would emit it, used to instantiate
the flattening and id-resolution theorems. -/
def witnessChunk : Chunk :=
  { id := "w.py::module", text := "x = 1", source_path := "w.py",
    chunk_type := "py_module", doc_type := "py", doc_dir := ".",
    doc_rank_hint := 0, symbol_name := "", loc_kind := "none",
    loc_start := Option.none, loc_end := Option.none,
    metadata := [("parser", .str "libcst")] }

/-- Witness for claim C5's amended statement at a concrete chunk. -/
theorem c5_witness :
    dictGet witnessChunk.to_metadata "id" = some (.str "w.py::module") ∧
    dictGet witnessChunk.to_metadata "loc_start" = Option.none :=
  ⟨(c5_flattening_amended witnessChunk).2.1,
   (c5_flattening_amended witnessChunk).2.2.2.2.2.2.2.2.2.1 rfl (by
     intro kv hkv
     rcases List.mem_singleton.mp hkv with rfl
     decide)⟩

/-- Claim C6: the indexing pipeline normalizes each embedding row; a row
of zero norm is divided by the substituted norm 1 and left unchanged, and
every row of non-zero norm ends up with L2 norm exactly 1. -/
theorem c6_unit_normalization (embs : List (List ℝ)) (v : List ℝ)
    (_hv : v ∈ embs) :
    normalizeBatch embs = embs.map normalizeRow ∧
    (l2norm v = 0 → normalizeRow v = v) ∧
    (l2norm v ≠ 0 → l2norm (normalizeRow v) = 1) :=
  ⟨rfl, normalizeRow_of_zero_norm v, l2norm_normalizeRow v⟩

/-- Witness for claim C6 at the rows `[0]` and `[3, 4]`. -/
theorem c6_witness :
    normalizeRow [(0 : ℝ)] = [0] ∧ l2norm (normalizeRow [(3 : ℝ), 4]) = 1 :=
  ⟨(c6_unit_normalization [[(0 : ℝ)]] [0] (by simp)).2.1 l2norm_zero_single,
   (c6_unit_normalization [[(3 : ℝ), 4]] [3, 4] (by simp)).2.2 l2norm_three_four⟩

/-- Claim C7 counterexample: on a zero-norm embedding the query-side
normalization (no zero guard) divides by zero, while the index side leaves
the vector unchanged — the two normalizations differ there. -/
theorem c7_counterexample :
    normalizeRowQuery [(0 : ℝ)] ≠ normalizeRowIndex [(0 : ℝ)] := by
  have hq : normalizeRowQuery [(0 : ℝ)] = Option.none := by
    unfold normalizeRowQuery
    simp [l2norm_zero_single, floatDiv, seqOption]
  rw [hq, normalizeRowIndex_eq_some]
  simp

/-- Claim C7 (amended): on every embedding of non-zero norm the query-side
and index-side normalizations agree (and are defined); only the zero-norm
case separates them, since `search` omits the `norms[norms == 0] = 1.0`
guard of `build_embeddings`. -/
theorem c7_same_normalization_amended (v : List ℝ) (h : l2norm v ≠ 0) :
    normalizeRowQuery v = normalizeRowIndex v ∧
    normalizeRowIndex v = some (normalizeRow v) := by
  refine ⟨?_, normalizeRowIndex_eq_some v⟩
  unfold normalizeRowQuery normalizeRowIndex
  rw [show guardNorm (l2norm v) = l2norm v from if_neg h]

/-- Witness for claim C7's amended statement at the row `[3, 4]`. -/
theorem c7_witness :
    normalizeRowQuery [(3 : ℝ), 4] = normalizeRowIndex [(3 : ℝ), 4] :=
  (c7_same_normalization_amended [(3 : ℝ), 4] l2norm_three_four).1

/-! ## Claims C8-C10 -/

/-- Claim C8: when the target collection name exists, the pipeline attempts
the deletion and then — whether it succeeded or failed (the failure is
swallowed by `except Exception: pass`) — proceeds to create the collection
and add every chunk's record in one batched call; when the name is absent
no deletion is attempted. -/
theorem c8_delete_failure_tolerated {σ : Type} (store : VectorStore σ)
    (encode : String → List ℝ) (chunks : List Chunk) (name : String) (st : σ) :
    ((store.listCollectionNames st).contains name = true →
      ∀ err, store.collectionDelete st name = .error err →
        createCollectionAndIndex store encode chunks name st
          = store.addRecords (store.createCollection st name) name
              (mkRecords chunks (buildEmbeddings encode chunks))) ∧
    ((store.listCollectionNames st).contains name = true →
      ∀ st', store.collectionDelete st name = .ok st' →
        createCollectionAndIndex store encode chunks name st
          = store.addRecords (store.createCollection st' name) name
              (mkRecords chunks (buildEmbeddings encode chunks))) ∧
    ((store.listCollectionNames st).contains name = false →
      createCollectionAndIndex store encode chunks name st
        = store.addRecords (store.createCollection st name) name
            (mkRecords chunks (buildEmbeddings encode chunks))) := by
  refine ⟨?_, ?_, ?_⟩
  · intro h err heq
    unfold createCollectionAndIndex
    rw [if_pos h, heq]
  · intro h st' heq
    unfold createCollectionAndIndex
    rw [if_pos h, heq]
  · intro h
    unfold createCollectionAndIndex
    rw [if_neg (by rw [h]; exact Bool.false_ne_true)]

/-- A minimal concrete store: the state is the list of collection names and
every deletion attempt fails. -/
def toyStore : VectorStore (List String) :=
  { listCollectionNames := fun s => s,
    collectionDelete := fun _ _ => .error "collection delete failed",
    createCollection := fun s n => n :: s,
    addRecords := fun s _ _ => s }

/-- Witness for claim C8: on a store whose deletion fails, indexing into an
existing collection name still reaches the create-and-add step. -/
theorem c8_witness :
    createCollectionAndIndex toyStore (fun _ => []) [] "rag_chunks" ["rag_chunks"]
      = toyStore.addRecords (toyStore.createCollection ["rag_chunks"] "rag_chunks")
          "rag_chunks" (mkRecords [] (buildEmbeddings (fun _ => []) [])) :=
  (c8_delete_failure_tolerated toyStore (fun _ => []) [] "rag_chunks"
    ["rag_chunks"]).1 (by decide) "collection delete failed" rfl

/-- Every chunk the cell loop emits carries the retained cell's non-blank
source as text. -/
theorem parseCellsLoop_text_not_blank (pathStr doc_type doc_dir : String)
    (rank : Int) (ps : List (Nat × NotebookCell)) :
    ∀ c ∈ parseCellsLoop pathStr doc_type doc_dir rank ps,
      isBlank c.text = false := by
  induction ps with
  | nil => intro c hc; cases hc
  | cons ic rest ih =>
    rcases ic with ⟨i, cell⟩
    intro c hc
    by_cases hb : isBlank cell.source
    · rw [parseCellsLoop, if_pos hb] at hc
      exact ih c hc
    · rw [parseCellsLoop, if_neg hb] at hc
      rcases List.mem_cons.mp hc with rfl | hc'
      · simpa [cellChunk] using Bool.of_not_eq_true hb
      · exact ih c hc'

/-- Claim C9 counterexample: a notebook whose container fails to parse
falls back to a single raw chunk whose text is the raw file content — for
an empty file, an empty-text chunk handed to the indexing pipeline. -/
theorem c9_counterexample :
    (parseNotebook "nb.ipynb" "ipynb" "." 1 (.error ()) "").map Chunk.text
      = [""] := rfl

/-- Claim C9 (amended): blank notebook cells are skipped and blank markdown
files contribute nothing, so those extractor paths only hand non-blank
texts to the pipeline; but the notebook container-parse fallback emits the
raw file content unfiltered (empty for an empty file), and the Python
extractor as shipped hands nothing at all — it raises `TypeError` on every
file, so no module chunk (empty or not) ever reaches the pipeline. -/
theorem c9_nonempty_text_amended :
    (∀ (pathStr doc_type doc_dir : String) (rank : Int)
        (cells : List NotebookCell) (rawText : String) (c : Chunk),
        c ∈ parseNotebook pathStr doc_type doc_dir rank (.ok cells) rawText →
        isBlank c.text = false) ∧
    (∀ (pathStr fileName doc_type doc_dir : String) (rank : Int)
        (text : String) (c : Chunk),
        c ∈ mdChunks pathStr fileName doc_type doc_dir rank text →
        isBlank c.text = false) ∧
    (parseNotebook "nb.ipynb" "ipynb" "." 1 (.error ()) "").map Chunk.text
      = [""] ∧
    (∀ (pathStr fileName source : String) (parsed : Option PyStmts),
        parsePythonFileActual pathStr fileName source parsed
          = .error (.unexpectedKeyword "start_line")) := by
  refine ⟨?_, ?_, rfl, parsePythonFileActual_raises⟩
  · intro pathStr doc_type doc_dir rank cells rawText c hc
    exact parseCellsLoop_text_not_blank pathStr doc_type doc_dir rank
      cells.enum c hc
  · intro pathStr fileName doc_type doc_dir rank text c hc
    unfold mdChunks at hc
    by_cases hb : isBlank text
    · rw [if_neg (by simp [hb])] at hc
      cases hc
    · rw [if_pos (by simp [hb])] at hc
      rcases List.mem_singleton.mp hc with rfl
      simpa using Bool.of_not_eq_true hb

/-- Witness for claim C9's amended statement: a concrete retained cell's
chunk has non-blank text. -/
theorem c9_witness :
    isBlank (cellChunk "nb.ipynb" "ipynb" "." 1 0 ⟨"code", "x = 1"⟩).text
      = false :=
  c9_nonempty_text_amended.1 "nb.ipynb" "ipynb" "." 1 [⟨"code", "x = 1"⟩] "" _
    (by
      rw [show parseNotebook "nb.ipynb" "ipynb" "." 1 (.ok [⟨"code", "x = 1"⟩]) ""
          = [cellChunk "nb.ipynb" "ipynb" "." 1 0 ⟨"code", "x = 1"⟩] from rfl]
      exact List.mem_cons_self _ _)

/-- Claim C10: the flattened metadata of every chunk carries the chunk's id
under the key `id` (a colliding extra entry is namespaced away, never
overwriting it), so the id-resolution fallback of `search` — store id when
available, metadata id otherwise — always yields the original chunk id for
records indexed by this pipeline. -/
theorem c10_id_resolution (c : Chunk) (ids : List String) (idx : Nat)
    (hids : ∀ h : idx < ids.length, ids.get ⟨idx, h⟩ = c.id) :
    dictGet c.to_metadata "id" = some (.str c.id) ∧
    resolveId ids idx c.to_metadata = some (.str c.id) := by
  refine ⟨to_metadata_get_id c, ?_⟩
  unfold resolveId
  by_cases h : idx < ids.length
  · rw [dif_pos h, hids h]
  · rw [dif_neg h]
    exact to_metadata_get_id c

/-- Witness for claim C10: with the store omitting ids, the metadata
fallback resolves the chunk's id. -/
theorem c10_witness :
    resolveId [] 0 witnessChunk.to_metadata = some (.str "w.py::module") :=
  (c10_id_resolution witnessChunk [] 0 (fun h => absurd h (by decide))).2
